import Mathlib

/-!
# Verification of the link extractor backend (`app.py`)

A shallow embedding of the link-extraction, normalization, diffing and
history logic of the Flask backend `app.py`, together with proofs of the
specified properties.

Modelling conventions:

* Strings are Lean `String`s; the parsing internals work on `List Char`
  (structural recursion, so every definition evaluates by `decide`/`rfl`).
* The Python standard-library functions `urllib.parse.urlsplit`,
  `urlunsplit` and `urljoin` used by `normalize_url` are modelled after
  the CPython implementation (RFC-3986-style resolution).  The `params`
  component (splitting the last path segment on `;`) is folded into the
  path, which is observationally equivalent for URLs whose last path
  segment contains no `;`; the tab/newline sanitisation added to recent
  CPython versions is not modelled.  CPython's `urlsplit` raises
  `ValueError "Invalid IPv6 URL"` on a netloc with unbalanced brackets;
  this is modelled by returning `none`.
* HTML parsing by BeautifulSoup is modelled by its output: the list of
  `href` attribute values of the anchor tags of the page, in document
  order.  `extract_links_from_html` therefore takes a `List String` of
  hrefs in place of the raw HTML.
* `datetime.now().isoformat()` is an input (`now : String`) of the
  request handler; the outbound HTTP GET is an input function
  `fetch : String → FetchResult`.
* Python's `sorted` on strings (lexicographic by code point) is modelled
  by `List.insertionSort (· ≤ ·)`, which is extensionally equal to any
  stable sort for this total order; `list(set(links))` is modelled by
  `List.dedup` together with an order-independence theorem quantifying
  over every duplicate-free enumeration of the set.
-/

/-- Split a character list at the first occurrence of `c`
(Python `str.split(c, 1)`); `none` when `c` does not occur. -/
def splitFirst (c : Char) : List Char → Option (List Char × List Char)
  | [] => none
  | x :: xs =>
    if x = c then some ([], xs)
    else
      match splitFirst c xs with
      | none => none
      | some (l, r) => some (x :: l, r)

/-- Take characters until one of `stops` is hit; the stop character is kept
in the remainder (CPython `_splitnetloc`). -/
def takeUntilAny (stops : List Char) : List Char → List Char × List Char
  | [] => ([], [])
  | x :: xs =>
    if x ∈ stops then ([], x :: xs)
    else
      let (a, b) := takeUntilAny stops xs
      (x :: a, b)

/-- Split on every occurrence of `c` (Python `str.split(c)`); the result is
always nonempty, and `splitAll c [] = [[]]`. -/
def splitAll (c : Char) : List Char → List (List Char)
  | [] => [[]]
  | x :: xs =>
    if x = c then [] :: splitAll c xs
    else
      match splitAll c xs with
      | [] => [[x]]
      | s :: ss => (x :: s) :: ss

/-- Join chunks with separator `c` (Python `c.join(...)`). -/
def joinWith (c : Char) : List (List Char) → List Char
  | [] => []
  | [a] => a
  | a :: rest => a ++ c :: joinWith c rest

/-- ASCII lower-casing of one character; agrees with Python `str.lower()`
on the scheme characters admitted by `urlsplit`. -/
def asciiLower (c : Char) : Char :=
  if 'A' ≤ c ∧ c ≤ 'Z' then Char.ofNat (c.toNat + 32) else c

/-- The characters CPython admits in a URL scheme
(`urllib.parse.scheme_chars`). -/
def scheme_chars : List Char :=
  "abcdefghijklmnopqrstuvwxyzABCDEFGHIJKLMNOPQRSTUVWXYZ0123456789+-.".toList

/-- The result of `urllib.parse.urlsplit`, with `params` folded into
`path` (see the module docstring). -/
structure SplitResult where
  scheme : List Char
  netloc : List Char
  path : List Char
  query : List Char
  fragment : List Char
deriving DecidableEq, Repr

/-- Model of CPython `urllib.parse.urlsplit url scheme=dflt`.  Detects the
scheme (first-position `:` preceded by a nonempty run of scheme
characters starting with an ASCII letter, lower-cased; otherwise the
caller-supplied default), then the netloc after a leading `//` up to the
first `/?#`, then splits off the fragment at the first `#` and the query
at the first `?`.  Returns `none` where CPython raises
`ValueError "Invalid IPv6 URL"`: a netloc containing exactly one of
`[`, `]`. -/
def urlsplitChars (url : List Char) (dflt : List Char) : Option SplitResult :=
  let (scheme, rest) :=
    match splitFirst ':' url with
    | none => (dflt, url)
    | some (before, after) =>
      if before ≠ [] ∧ (url.head?.getD ' ').isAlpha ∧ before.all (· ∈ scheme_chars)
      then (before.map asciiLower, after)
      else (dflt, url)
  let netlocSplit : Option (List Char × List Char) :=
    match rest with
    | '/' :: '/' :: r =>
      let (nl, rest2) := takeUntilAny ['/', '?', '#'] r
      if ('[' ∈ nl ∧ ']' ∉ nl) ∨ (']' ∈ nl ∧ '[' ∉ nl) then none
      else some (nl, rest2)
    | _ => some ([], rest)
  match netlocSplit with
  | none => none
  | some (netloc, rest2) =>
    let (rest3, fragment) :=
      match splitFirst '#' rest2 with
      | some (a, b) => (a, b)
      | none => (rest2, [])
    let (path, query) :=
      match splitFirst '?' rest3 with
      | some (a, b) => (a, b)
      | none => (rest3, [])
    some ⟨scheme, netloc, path, query, fragment⟩

/-- `urlsplit` on a `String` with a default scheme. -/
def urlsplitWith (url : String) (dflt : String) : Option SplitResult :=
  urlsplitChars url.toList dflt.toList

/-- `urlsplit` on a `String` with the empty default scheme, as in
`urlparse(url)` in `app.py`. -/
def urlsplitStr (url : String) : Option SplitResult :=
  urlsplitWith url ""

/-- Model of CPython `urllib.parse.urlunsplit` (= `geturl`), reassembling
the URL string from its components. -/
def urlunsplitChars (r : SplitResult) : List Char :=
  let url :=
    if r.netloc ≠ [] ∨ (r.path ≠ [] ∧ r.path.take 2 = ['/', '/']) then
      let p := if r.path ≠ [] ∧ r.path.head? ≠ some '/' then '/' :: r.path else r.path
      '/' :: '/' :: (r.netloc ++ p)
    else r.path
  let url := if r.scheme ≠ [] then r.scheme ++ ':' :: url else url
  let url := if r.query ≠ [] then url ++ '?' :: r.query else url
  if r.fragment ≠ [] then url ++ '#' :: r.fragment else url

/-- `geturl` producing a `String`. -/
def geturl (r : SplitResult) : String :=
  String.mk (urlunsplitChars r)

/-- `urllib.parse.uses_relative`. -/
def uses_relative : List String :=
  ["", "ftp", "http", "gopher", "nntp", "imap", "wais", "file", "https",
   "shttp", "mms", "prospero", "rtsp", "rtspu", "sftp", "svn", "svn+ssh",
   "ws", "wss"]

/-- `urllib.parse.uses_netloc`. -/
def uses_netloc : List String :=
  ["", "ftp", "http", "gopher", "nntp", "telnet", "imap", "wais", "file",
   "mms", "https", "shttp", "snews", "prospero", "rtsp", "rtspu", "rsync",
   "svn", "svn+ssh", "sftp", "nfs", "git", "git+ssh", "ws", "wss",
   "itms-services"]

/-- Keep the first element, drop empty chunks strictly between the first
and the last (CPython `segments[1:-1] = filter(None, segments[1:-1])`),
helper on the tail: keeps the last element even when empty. -/
def filterKeepLast : List (List Char) → List (List Char)
  | [] => []
  | [a] => [a]
  | a :: rest => if a = [] then filterKeepLast rest else a :: filterKeepLast rest

/-- Dot-segment resolution of CPython `urljoin`: `..` pops the last
resolved segment (ignoring underflow), `.` is skipped, anything else is
appended.  `acc` is the resolved path in reverse. -/
def resolveSegs (acc : List (List Char)) : List (List Char) → List (List Char)
  | [] => acc.reverse
  | s :: rest =>
    if s = ['.', '.'] then resolveSegs (acc.drop 1) rest
    else if s = ['.'] then resolveSegs acc rest
    else resolveSegs (s :: acc) rest

/-- Model of CPython `urllib.parse.urljoin base url`: resolve a possibly
relative `url` against `base`.  `none` where CPython raises (unbalanced
IPv6 brackets in a netloc). -/
def urljoin (base url : String) : Option String :=
  if base = "" then some url
  else if url = "" then some base
  else
    match urlsplitWith base "" with
    | none => none
    | some b =>
      match urlsplitChars url.toList b.scheme with
      | none => none
      | some u =>
        if u.scheme ≠ b.scheme ∨ String.mk u.scheme ∉ uses_relative then some url
        else if String.mk u.scheme ∈ uses_netloc ∧ u.netloc ≠ [] then
          some (geturl u)
        else
          let netloc := if String.mk u.scheme ∈ uses_netloc then b.netloc else u.netloc
          if u.path = [] then
            let query := if u.query = [] then b.query else u.query
            some (geturl ⟨u.scheme, netloc, b.path, query, u.fragment⟩)
          else
            let base_parts := splitAll '/' b.path
            let base_parts :=
              if base_parts.getLast? ≠ some [] then base_parts.dropLast else base_parts
            let segments :=
              if u.path.head? = some '/' then splitAll '/' u.path
              else
                match base_parts ++ splitAll '/' u.path with
                | [] => []
                | a :: rest => a :: filterKeepLast rest
            let resolved := resolveSegs [] segments
            let resolved :=
              if segments.getLast? = some ['.'] ∨ segments.getLast? = some ['.', '.']
              then resolved ++ [[]] else resolved
            let joined := joinWith '/' resolved
            let path := if joined = [] then ['/'] else joined
            some (geturl ⟨u.scheme, netloc, path, u.query, u.fragment⟩)

/-- Model of `normalize_url` (`app.py` lines 59–73): resolve `url` against
`base_url` with `urljoin`, re-parse, clear the query when `remove_query`
and the fragment when `remove_anchors`, and reassemble with `geturl`.
The Python `except` branch returning `None` corresponds to `none`
(reachable exactly where `urljoin`/`urlparse` raise). -/
def normalize_url (url base_url : String) (remove_query remove_anchors : Bool) :
    Option String :=
  match urljoin base_url url with
  | none => none
  | some full_url =>
    match urlsplitStr full_url with
    | none => none
    | some parsed =>
      let parsed := if remove_query then { parsed with query := [] } else parsed
      let parsed := if remove_anchors then { parsed with fragment := [] } else parsed
      some (geturl parsed)

/-- The options dictionary of an extraction request.  Each field is
`none` when the corresponding key is absent from the Python dict, so
`opts.internal_only.getD true` models `options.get('internal_only', True)`. -/
structure ExtractOptions where
  internal_only : Option Bool
  remove_query : Option Bool
  remove_anchors : Option Bool
deriving DecidableEq, Repr

/-- The empty options dict `{}`. -/
def emptyOptions : ExtractOptions := ⟨none, none, none⟩

/-- The explicit default dict
`{'internal_only': True, 'remove_query': True, 'remove_anchors': True}`. -/
def defaultOptions : ExtractOptions := ⟨some true, some true, some true⟩

/-- The normalized-link list built by the extraction loop of
`extract_links_from_html` (`app.py` lines 87–101): for each anchor href,
skip it when empty or exactly `"#"`, normalize it, and keep the result
when it is truthy (not `None` and not the empty string). -/
def collectLinks (hrefs : List String) (base_url : String)
    (remove_query remove_anchors : Bool) : List String :=
  hrefs.filterMap fun href =>
    if href = "" ∨ href = "#" then none
    else
      match normalize_url href base_url remove_query remove_anchors with
      | none => none
      | some n => if n = "" then none else some n

/-- Python `sorted` on strings: lexicographic ascending by code point. -/
def sortedStr (l : List String) : List String :=
  l.insertionSort (· ≤ ·)

/-- The tail of `extract_links_from_html` after deduplication (`app.py`
lines 106–118), applied to an arbitrary enumeration `unique_links` of the
set of collected links: the optional internal-only host filter followed
by the ascending sort.  `none` models the `ValueError` CPython raises
when `urlparse(base_url)` fails (propagated by the Python code, whose
`try` only guards the per-link parse). -/
def finishLinks (base_url : String) (internal_only : Bool)
    (unique_links : List String) : Option (List String) :=
  if internal_only then
    match urlsplitStr base_url with
    | none => none
    | some bp =>
      some (sortedStr (unique_links.filter fun link =>
        match urlsplitStr link with
        | none => false
        | some p => p.netloc = bp.netloc))
  else some (sortedStr unique_links)

/-- Model of `extract_links_from_html` (`app.py` lines 75–118).  The HTML
parse is modelled by its output `hrefs` (the href attributes of the
page's anchors, in document order); `options = none` models the Python
default `options=None`, which installs all three defaults.
`list(set(links))` is modelled by `List.dedup` (an arbitrary
duplicate-free enumeration; see `extract_set_order_irrelevant`). -/
def extract_links_from_html (hrefs : List String) (base_url : String)
    (options : Option ExtractOptions) : Option (List String) :=
  let opts := options.getD defaultOptions
  let links := collectLinks hrefs base_url
    (opts.remove_query.getD true) (opts.remove_anchors.getD true)
  finishLinks base_url (opts.internal_only.getD true) links.dedup

/-- One stored history entry, i.e. the JSON dict built at `app.py`
lines 175–183.  A history file written by hand may lack keys, so the
fields read back via `.get` are `Option`s: `base_url` is read by
`get_previous_data` via `item.get('base_url')` and `all_links` via
`previous_data.get('all_links', [])`. -/
structure Record where
  base_url : Option String
  all_links : Option (List String)
  new_links : List String
  timestamp : String
  total_count : Nat
  new_count : Nat
  options : ExtractOptions
deriving DecidableEq, Repr

/-- Model of `save_history` (`app.py` lines 41–57): insert the record at
position 0 and keep only the first 50 entries.  The on-disk JSON array is
modelled by the list itself (`load_history` of an absent or unreadable
file is the empty list). -/
def save_history (history : List Record) (data : Record) : List Record :=
  (data :: history).take 50

/-- Model of `get_previous_data` (`app.py` lines 120–126): the first
record of the history whose `base_url` equals `url` (history is
most-recent-first). -/
def get_previous_data (history : List Record) (url : String) : Option Record :=
  history.find? fun item => item.base_url = some url

/-- The diff step of the handler (`app.py` lines 166–172): when a
previous record for this URL exists, keep the freshly extracted links not
contained in its `all_links` (missing key ⇒ empty list); otherwise all
links are new. -/
def compute_new_links (history : List Record) (url : String)
    (all_links : List String) : List String :=
  match get_previous_data history url with
  | some prev => all_links.filter fun l => l ∉ prev.all_links.getD []
  | none => all_links

/-- The body of a `POST /api/extract` request: `url` is `none` when the
key is absent; `options` is `none` when absent (the handler then uses
`{}`). -/
structure ApiRequest where
  url : Option String
  options : Option ExtractOptions
deriving DecidableEq, Repr

/-- Outcome of the outbound `requests.get` (`app.py` lines 157–161): on
success, the fetched page modelled by its anchor hrefs; `failure e`
covers both transport errors and the non-2xx statuses raised by
`raise_for_status`, with `e` the exception text. -/
inductive FetchResult where
  | success (hrefs : List String)
  | failure (e : String)
deriving DecidableEq, Repr

/-- A handler response: `ok` with the result record (HTTP 200), or `err`
with an HTTP status and the error message. -/
inductive ApiResponse where
  | ok (record : Record)
  | err (status : Nat) (msg : String)
deriving DecidableEq, Repr

/-- Python `str.strip()` (whitespace characters; the full Unicode set of
Python is restricted here to `Char.isWhitespace`). -/
def pyStrip (s : String) : String :=
  String.mk (((s.toList.dropWhile Char.isWhitespace).reverse.dropWhile
    Char.isWhitespace).reverse)

/-- Model of the `/api/extract` handler `extract_links` (`app.py` lines
133–192).  `data = none` models a missing/falsy JSON body as well as a
body without the `'url'` key (both take the same branch in Python);
`fetch` is the outbound HTTP GET; `now` is `datetime.now().isoformat()`;
`history` is the stored history array.  Returns the response and the
history after the request (persistence failure being ignored by the
code, the successful write is modelled). -/
def extract_links (data : Option ApiRequest) (fetch : String → FetchResult)
    (history : List Record) (now : String) : ApiResponse × List Record :=
  match data with
  | none => (.err 400 "URLが指定されていません", history)
  | some d =>
    match d.url with
    | none => (.err 400 "URLが指定されていません", history)
    | some u =>
      let target_url := pyStrip u
      let options := d.options.getD emptyOptions
      match urlsplitStr target_url with
      | none => (.err 400 "無効なURL形式です", history)
      | some parsed_url =>
        if parsed_url.scheme = [] ∨ parsed_url.netloc = [] then
          (.err 400 "有効なURLを指定してください", history)
        else
          match fetch target_url with
          | .failure e =>
            (.err 400 ("Webページの取得に失敗しました: " ++ e), history)
          | .success hrefs =>
            match extract_links_from_html hrefs target_url (some options) with
            | none =>
              (.err 500 "予期しないエラーが発生しました: Invalid IPv6 URL", history)
            | some all_links =>
              let new_links := compute_new_links history target_url all_links
              let result : Record :=
                { base_url := some target_url
                  all_links := some all_links
                  new_links := new_links
                  timestamp := now
                  total_count := all_links.length
                  new_count := new_links.length
                  options := options }
              (.ok result, save_history history result)

theorem sortedStr_sorted (l : List String) : (sortedStr l).Sorted (· ≤ ·) :=
  List.sorted_insertionSort _ l

theorem sortedStr_perm (l : List String) : List.Perm (sortedStr l) l :=
  List.perm_insertionSort _ l

theorem sortedStr_nodup {l : List String} (h : l.Nodup) : (sortedStr l).Nodup :=
  (sortedStr_perm l).nodup_iff.mpr h

theorem mem_sortedStr {a : String} {l : List String} : a ∈ sortedStr l ↔ a ∈ l :=
  (sortedStr_perm l).mem_iff

theorem sortedStr_congr {l1 l2 : List String} (h : List.Perm l1 l2) :
    sortedStr l1 = sortedStr l2 :=
  List.eq_of_perm_of_sorted ((sortedStr_perm l1).trans (h.trans (sortedStr_perm l2).symm))
    (sortedStr_sorted l1) (sortedStr_sorted l2)

theorem finishLinks_nodup_sorted {base_url : String} {io : Bool} {u res : List String}
    (hu : u.Nodup) (h : finishLinks base_url io u = some res) :
    res.Nodup ∧ res.Sorted (· ≤ ·) := by
  unfold finishLinks at h
  split at h
  · split at h
    · exact absurd h (by simp)
    · simp only [Option.some.injEq] at h
      subst h
      exact ⟨sortedStr_nodup (hu.filter _), sortedStr_sorted _⟩
  · simp only [Option.some.injEq] at h
    subst h
    exact ⟨sortedStr_nodup hu, sortedStr_sorted _⟩

/-- C1 (confirmed): for every page (list of anchor hrefs), base URL and
options, a link list returned by `extract_links_from_html` contains no
duplicate entries and is sorted ascending by string value. -/
theorem allLinks_nodup_sorted (hrefs : List String) (base_url : String)
    (options : Option ExtractOptions) (res : List String)
    (h : extract_links_from_html hrefs base_url options = some res) :
    res.Nodup ∧ res.Sorted (· ≤ ·) :=
  finishLinks_nodup_sorted (List.nodup_dedup _) h

/-- Witness for `allLinks_nodup_sorted` at the Scenario A input. -/
theorem allLinks_nodup_sorted_witness :
    (["https://site.com/a"] : List String).Nodup ∧
      (["https://site.com/a"] : List String).Sorted (· ≤ ·) :=
  allLinks_nodup_sorted ["/a", "#", "", "https://other.com/x", "/a?x=1#frag"]
    "https://site.com" none ["https://site.com/a"] (by decide)

/-- C2 (confirmed): the diff step yields a subsequence of the freshly
extracted `all_links`, in order; a link is kept exactly when it is absent
from the previous record's `all_links` (for the first history record
whose `base_url` matches), and when no previous record exists the new
links are exactly `all_links`. -/
theorem newLinks_diff (history : List Record) (url : String) (all_links : List String) :
    (compute_new_links history url all_links).Sublist all_links ∧
    (get_previous_data history url = none →
      compute_new_links history url all_links = all_links) ∧
    ∀ prev, get_previous_data history url = some prev →
      ∀ l, l ∈ compute_new_links history url all_links ↔
        l ∈ all_links ∧ l ∉ prev.all_links.getD [] := by
  refine ⟨?_, ?_, ?_⟩
  · unfold compute_new_links
    split
    · exact List.filter_sublist _
    · exact List.Sublist.refl _
  · intro h
    unfold compute_new_links
    rw [h]
  · intro prev h l
    unfold compute_new_links
    rw [h]
    simp [List.mem_filter]

/-- Previous record for the `newLinks_diff` witness. -/
def prevRec : Record :=
  ⟨some "https://site.com", some ["https://site.com/a"], [], "t0", 1, 0, emptyOptions⟩

/-- Witness for `newLinks_diff`: one stored record, one old and one new link. -/
theorem newLinks_diff_witness :
    (compute_new_links [prevRec] "https://site.com"
      ["https://site.com/a", "https://site.com/b"]).Sublist
      ["https://site.com/a", "https://site.com/b"] ∧
    ("https://site.com/b" ∈ compute_new_links [prevRec] "https://site.com"
        ["https://site.com/a", "https://site.com/b"] ↔
      "https://site.com/b" ∈ ["https://site.com/a", "https://site.com/b"] ∧
        "https://site.com/b" ∉ prevRec.all_links.getD []) := by
  have h := newLinks_diff [prevRec] "https://site.com"
    ["https://site.com/a", "https://site.com/b"]
  exact ⟨h.1, h.2.2 prevRec (by decide) "https://site.com/b"⟩

theorem finishLinks_ext {base_url : String} {io : Bool} {u1 u2 : List String}
    (h1 : u1.Nodup) (h2 : u2.Nodup) (hm : ∀ x, x ∈ u1 ↔ x ∈ u2) :
    finishLinks base_url io u1 = finishLinks base_url io u2 := by
  have hp : List.Perm u1 u2 := (List.perm_ext_iff_of_nodup h1 h2).mpr hm
  unfold finishLinks
  split
  · split
    · rfl
    · exact congrArg some (sortedStr_congr (hp.filter _))
  · exact congrArg some (sortedStr_congr hp)

/-- C9 (confirmed): the extractor is deterministic in the iteration order
of the intermediate Python `set`: finishing the pipeline from any
duplicate-free enumeration of the collected links gives one and the same
sorted list, the one `extract_links_from_html` returns. -/
theorem extract_set_order_irrelevant (hrefs : List String) (base_url : String)
    (options : Option ExtractOptions) (u1 u2 : List String)
    (h1 : u1.Nodup) (h2 : u2.Nodup)
    (hm1 : ∀ x, x ∈ u1 ↔ x ∈ collectLinks hrefs base_url
      ((options.getD defaultOptions).remove_query.getD true)
      ((options.getD defaultOptions).remove_anchors.getD true))
    (hm2 : ∀ x, x ∈ u2 ↔ x ∈ collectLinks hrefs base_url
      ((options.getD defaultOptions).remove_query.getD true)
      ((options.getD defaultOptions).remove_anchors.getD true)) :
    finishLinks base_url ((options.getD defaultOptions).internal_only.getD true) u1 =
      finishLinks base_url ((options.getD defaultOptions).internal_only.getD true) u2 ∧
    finishLinks base_url ((options.getD defaultOptions).internal_only.getD true) u1 =
      extract_links_from_html hrefs base_url options := by
  refine ⟨finishLinks_ext h1 h2 (fun x => (hm1 x).trans (hm2 x).symm), ?_⟩
  exact finishLinks_ext h1 (List.nodup_dedup _)
    (fun x => (hm1 x).trans List.mem_dedup.symm)

/-- Witness for `extract_set_order_irrelevant`: the reversed enumeration
of the two collected links finishes to the same result as the extractor. -/
theorem extract_set_order_irrelevant_witness :
    finishLinks "https://site.com" true
      ["https://site.com/b", "https://site.com/a"] =
      extract_links_from_html ["/a", "/b"] "https://site.com" none := by
  have hp1 : List.Perm ["https://site.com/b", "https://site.com/a"]
      (collectLinks ["/a", "/b"] "https://site.com" true true) := by decide
  have hp2 : List.Perm ["https://site.com/a", "https://site.com/b"]
      (collectLinks ["/a", "/b"] "https://site.com" true true) := by decide
  exact (extract_set_order_irrelevant ["/a", "/b"] "https://site.com" none
    ["https://site.com/b", "https://site.com/a"]
    ["https://site.com/a", "https://site.com/b"]
    (by decide) (by decide) (fun x => hp1.mem_iff) (fun x => hp2.mem_iff)).2

/-- C10 (confirmed): when the most recent stored record for the base URL
lacks the `all_links` key, the diff treats it as the empty list, so every
freshly extracted link counts as new and the diff step succeeds (the
model is total). -/
theorem missing_all_links_all_new (history : List Record) (url : String)
    (all_links : List String) (prev : Record)
    (h : get_previous_data history url = some prev) (hm : prev.all_links = none) :
    compute_new_links history url all_links = all_links := by
  unfold compute_new_links
  rw [h]
  simp [hm]

/-- Record without `all_links`, for the `missing_all_links_all_new` witness. -/
def malformedRec : Record :=
  ⟨some "https://site.com", none, [], "t0", 0, 0, emptyOptions⟩

/-- Witness for `missing_all_links_all_new`. -/
theorem missing_all_links_all_new_witness :
    compute_new_links [malformedRec] "https://site.com" ["https://site.com/a"] =
      ["https://site.com/a"] :=
  missing_all_links_all_new [malformedRec] "https://site.com" ["https://site.com/a"]
    malformedRec (by decide) rfl

/-- C3 (confirmed): with `internal_only` true (or defaulted), every link
returned by the extractor parses to the same netloc as the base URL
(exact string equality of the `urlparse` netlocs, `app.py` line 112);
with `internal_only` explicitly false, every collected normalized link —
whatever its host — is retained in the returned list. -/
theorem finishLinks_internal_mem {base_url : String} {u res : List String}
    (h : finishLinks base_url true u = some res) {l : String} (hl : l ∈ res) :
    ∃ p bp, urlsplitStr l = some p ∧ urlsplitStr base_url = some bp ∧
      p.netloc = bp.netloc := by
  unfold finishLinks at h
  rw [if_pos rfl] at h
  cases hbp : urlsplitStr base_url with
  | none => rw [hbp] at h; exact absurd h (by simp)
  | some bp =>
    rw [hbp] at h
    simp only [Option.some.injEq] at h
    subst h
    rw [mem_sortedStr, List.mem_filter] at hl
    obtain ⟨-, hp⟩ := hl
    cases hlp : urlsplitStr l with
    | none => rw [hlp] at hp; simp at hp
    | some p =>
      rw [hlp] at hp
      simp only [decide_eq_true_eq] at hp
      exact ⟨p, bp, rfl, rfl, hp⟩

theorem finishLinks_noFilter_mem {base_url : String} {u res : List String}
    (h : finishLinks base_url false u = some res) {l : String} (hl : l ∈ u) :
    l ∈ res := by
  unfold finishLinks at h
  rw [if_neg (by simp)] at h
  simp only [Option.some.injEq] at h
  subst h
  exact mem_sortedStr.mpr hl

theorem internalOnly_filter (hrefs : List String) (base_url : String)
    (opts : ExtractOptions) (res : List String) :
    (opts.internal_only.getD true = true →
      extract_links_from_html hrefs base_url (some opts) = some res →
      ∀ l ∈ res, ∃ p bp, urlsplitStr l = some p ∧ urlsplitStr base_url = some bp ∧
        p.netloc = bp.netloc) ∧
    (opts.internal_only = some false →
      extract_links_from_html hrefs base_url (some opts) = some res →
      ∀ l ∈ collectLinks hrefs base_url (opts.remove_query.getD true)
        (opts.remove_anchors.getD true), l ∈ res) := by
  constructor
  · intro hio h l hl
    have h2 : finishLinks base_url (opts.internal_only.getD true)
        ((collectLinks hrefs base_url (opts.remove_query.getD true)
          (opts.remove_anchors.getD true)).dedup) = some res := h
    rw [hio] at h2
    exact finishLinks_internal_mem h2 hl
  · intro hio h l hl
    have hio2 : opts.internal_only.getD true = false := by rw [hio]; rfl
    have h2 : finishLinks base_url (opts.internal_only.getD true)
        ((collectLinks hrefs base_url (opts.remove_query.getD true)
          (opts.remove_anchors.getD true)).dedup) = some res := h
    rw [hio2] at h2
    exact finishLinks_noFilter_mem h2 (List.mem_dedup.mpr hl)

/-- Witness for `internalOnly_filter`: both directions at concrete pages
over base `https://site.com` — an internal link passes the host check,
and with `internal_only = false` the external link is retained. -/
theorem internalOnly_filter_witness :
    (∃ p bp, urlsplitStr "https://site.com/a" = some p ∧
      urlsplitStr "https://site.com" = some bp ∧ p.netloc = bp.netloc) ∧
    "https://other.com/x" ∈ (["https://other.com/x"] : List String) := by
  constructor
  · exact (internalOnly_filter ["/a"] "https://site.com" emptyOptions
      ["https://site.com/a"]).1 rfl (by decide) "https://site.com/a" (by decide)
  · exact (internalOnly_filter ["https://other.com/x"] "https://site.com"
      ⟨some false, none, none⟩ ["https://other.com/x"]).2 rfl (by decide)
      "https://other.com/x" (by decide)

/-- C5 (confirmed): Scenario A.  For the page whose anchors carry hrefs
`["/a", "#", "", "https://other.com/x", "/a?x=1#frag"]`, base URL
`https://site.com` and default options (both the Python-level default
`options=None` and the handler-level empty dict `{}`), the extractor
returns exactly `["https://site.com/a"]`: query and fragment stripped,
`/a` and `/a?x=1#frag` collapsed, the external, empty and anchor-only
hrefs excluded. -/
theorem scenario_a :
    extract_links_from_html ["/a", "#", "", "https://other.com/x", "/a?x=1#frag"]
      "https://site.com" none = some ["https://site.com/a"] ∧
    extract_links_from_html ["/a", "#", "", "https://other.com/x", "/a?x=1#frag"]
      "https://site.com" (some emptyOptions) = some ["https://site.com/a"] := by
  decide

theorem save_history_foldl (rs : List Record) (h : List Record)
    (hlen : h.length ≤ 50) :
    rs.foldl save_history h = (rs.reverse ++ h).take 50 := by
  induction rs generalizing h with
  | nil =>
    simp only [List.foldl_nil, List.reverse_nil, List.nil_append]
    exact (List.take_of_length_le hlen).symm
  | cons r rs ih =>
    rw [List.foldl_cons]
    have hs : save_history h r = (r :: h).take 50 := rfl
    rw [hs, ih ((r :: h).take 50) (by simp)]
    rw [List.reverse_cons, List.append_assoc, List.singleton_append]
    rw [List.take_append_eq_append_take, List.take_append_eq_append_take]
    congr 1
    rw [List.take_take]
    rw [Nat.min_eq_left (Nat.sub_le _ _)]

/-- C7 (confirmed): `save_history` inserts the record at position 0 of
the stored array and truncates to the first 50 entries; after 51
successive appends starting from an empty store, the history holds
exactly 50 records, most-recent-first, the first-appended (oldest) one
having been dropped. -/
theorem history_cap (history : List Record) (r : Record) (rs : List Record)
    (hlen : rs.length = 51) :
    save_history history r = (r :: history).take 50 ∧
    rs.foldl save_history [] = (rs.drop 1).reverse ∧
    (rs.foldl save_history []).length = 50 := by
  refine ⟨rfl, ?_, ?_⟩
  · rw [save_history_foldl rs [] (by simp)]
    cases rs with
    | nil => simp at hlen
    | cons x t =>
      have ht : t.reverse.length = 50 := by
        simp only [List.length_cons] at hlen
        simp [Nat.succ_injective hlen]
      rw [List.reverse_cons, List.append_nil, List.drop_one, List.tail_cons]
      rw [← ht, List.take_left]
  · rw [save_history_foldl rs [] (by simp)]
    simp [hlen]

/-- Record used by the `history_cap` witness. -/
def emptyRec : Record := ⟨none, none, [], "", 0, 0, emptyOptions⟩

/-- Witness for `history_cap`: 51 identical appends leave 50 records. -/
theorem history_cap_witness :
    save_history [] emptyRec = (emptyRec :: []).take 50 ∧
    (List.replicate 51 emptyRec).foldl save_history [] =
      ((List.replicate 51 emptyRec).drop 1).reverse ∧
    ((List.replicate 51 emptyRec).foldl save_history []).length = 50 :=
  history_cap [] emptyRec (List.replicate 51 emptyRec) (by simp)

/-- A stored/returned record with its echoed `options` field erased, for
stating which parts of the `/api/extract` response options-defaulting
preserves. -/
def recordModuloOptions (r : Record) :
    Option String × Option (List String) × List String × String × Nat × Nat :=
  (r.base_url, r.all_links, r.new_links, r.timestamp, r.total_count, r.new_count)

/-- A response with the record's echoed `options` field erased. -/
def responseModuloOptions (a : ApiResponse) :
    Sum (Option String × Option (List String) × List String × String × Nat × Nat)
      (Nat × String) :=
  match a with
  | .ok r => .inl (recordModuloOptions r)
  | .err s m => .inr (s, m)

/-- C4 counterexample: a request omitting `options` and the identical
request passing the explicit defaults produce different responses — the
result dict echoes the submitted `options`, which is `{}` in the first
case and the full default dict in the second. -/
theorem options_defaulting_counterexample :
    extract_links (some ⟨some "https://site.com", none⟩)
      (fun _ => FetchResult.success ["/a"]) [] "t" ≠
    extract_links (some ⟨some "https://site.com", some defaultOptions⟩)
      (fun _ => FetchResult.success ["/a"]) [] "t" := by
  decide

/-- C4 amended (corrected): omitting `options` is equivalent to passing
`{internal_only: true, remove_query: true, remove_anchors: true}` in
every part of the response and of the stored history record except the
echoed `options` field itself: status, `base_url`, `all_links`,
`new_links`, `timestamp`, `total_count` and `new_count` all agree for
every url, fetch outcome, stored history and timestamp. -/
theorem options_defaulting_extraction_equiv (u : String)
    (fetch : String → FetchResult) (history : List Record) (now : String) :
    responseModuloOptions (extract_links (some ⟨some u, none⟩) fetch history now).1 =
      responseModuloOptions
        (extract_links (some ⟨some u, some defaultOptions⟩) fetch history now).1 ∧
    ((extract_links (some ⟨some u, none⟩) fetch history now).2).map
        recordModuloOptions =
      ((extract_links (some ⟨some u, some defaultOptions⟩) fetch history
        now).2).map recordModuloOptions := by
  simp only [extract_links, Option.getD_none, Option.getD_some]
  cases hsp : urlsplitStr (pyStrip u) with
  | none => exact ⟨rfl, rfl⟩
  | some p =>
    simp only []
    by_cases hv : p.scheme = [] ∨ p.netloc = []
    · rw [if_pos hv, if_pos hv]
      exact ⟨rfl, rfl⟩
    · rw [if_neg hv, if_neg hv]
      cases hf : fetch (pyStrip u) with
      | failure e => exact ⟨rfl, rfl⟩
      | success hrefs =>
        simp only []
        have hee : extract_links_from_html hrefs (pyStrip u) (some emptyOptions) =
            extract_links_from_html hrefs (pyStrip u) (some defaultOptions) := rfl
        rw [hee]
        cases hex : extract_links_from_html hrefs (pyStrip u) (some defaultOptions) with
        | none => exact ⟨rfl, rfl⟩
        | some all_links =>
          exact ⟨rfl, by simp [save_history, recordModuloOptions]⟩

/-- C6 counterexample: a request whose `url` is empty after trimming is
rejected with the invalid-URL message (`'有効なURLを指定してください'`),
not with the no-URL message (`'URLが指定されていません'`) the claim
requires — the code only emits the no-URL error when the key is missing. -/
theorem empty_url_message_counterexample :
    (extract_links (some ⟨some "   ", none⟩) (fun _ => FetchResult.success [])
        [] "t").1 = .err 400 "有効なURLを指定してください" ∧
    (extract_links (some ⟨some "   ", none⟩) (fun _ => FetchResult.success [])
        [] "t").1 ≠ .err 400 "URLが指定されていません" := by
  exact ⟨rfl, by decide⟩

/-- C6 amended (corrected): a request with no body or without the `url`
key is rejected 400 with the no-URL error; a request whose trimmed `url`
does not parse into both a scheme and a netloc — which includes the
empty-after-trimming url — is rejected 400 with the invalid-URL error
(and an unparseable URL with the bad-format error); in every case the
history is unchanged and no fetch is consulted (the result is the same
for every `fetch` function). -/
theorem validation_rejects (r : ApiRequest) (u : String) (p : SplitResult)
    (fetch : String → FetchResult) (history : List Record) (now : String) :
    (extract_links none fetch history now =
      (.err 400 "URLが指定されていません", history)) ∧
    (r.url = none → extract_links (some r) fetch history now =
      (.err 400 "URLが指定されていません", history)) ∧
    (r.url = some u → urlsplitStr (pyStrip u) = none →
      extract_links (some r) fetch history now =
        (.err 400 "無効なURL形式です", history)) ∧
    (r.url = some u → urlsplitStr (pyStrip u) = some p →
      p.scheme = [] ∨ p.netloc = [] →
      extract_links (some r) fetch history now =
        (.err 400 "有効なURLを指定してください", history)) := by
  obtain ⟨ru, ro⟩ := r
  refine ⟨rfl, ?_, ?_, ?_⟩
  · intro h
    cases h
    rfl
  · intro h hsp
    cases h
    simp only [extract_links]
    rw [hsp]
  · intro h hsp hv
    cases h
    simp only [extract_links]
    rw [hsp]
    simp only []
    rw [if_pos hv]

/-- Witness for `validation_rejects`: Scenario C, `url = "not a url"`. -/
theorem validation_rejects_witness :
    extract_links (some ⟨some "not a url", none⟩)
      (fun _ => FetchResult.failure "boom") [] "t" =
      (.err 400 "有効なURLを指定してください", []) :=
  (validation_rejects ⟨some "not a url", none⟩ "not a url"
    ⟨[], [], "not a url".toList, [], []⟩ (fun _ => FetchResult.failure "boom")
    [] "t").2.2.2 rfl (by decide) (by decide)

/-- C8 (confirmed): when the fetch fails (transport error or non-2xx
status raised by `raise_for_status`), the handler answers 400 with a
message carrying the underlying cause, and the stored history is
unchanged — no record is appended. -/
theorem fetch_error_no_persist (r : ApiRequest) (u e : String) (p : SplitResult)
    (fetch : String → FetchResult) (history : List Record) (now : String)
    (hu : r.url = some u) (hp : urlsplitStr (pyStrip u) = some p)
    (hs : p.scheme ≠ []) (hn : p.netloc ≠ [])
    (hf : fetch (pyStrip u) = .failure e) :
    extract_links (some r) fetch history now =
      (.err 400 ("Webページの取得に失敗しました: " ++ e), history) := by
  obtain ⟨ru, ro⟩ := r
  cases hu
  simp only [extract_links]
  rw [hp]
  simp only []
  rw [if_neg (by tauto)]
  rw [hf]

/-- Witness for `fetch_error_no_persist`: a 404 on `https://site.com`. -/
theorem fetch_error_no_persist_witness :
    extract_links (some ⟨some "https://site.com", none⟩)
      (fun _ => FetchResult.failure "404 Client Error") [] "t" =
      (.err 400 ("Webページの取得に失敗しました: " ++ "404 Client Error"), []) :=
  fetch_error_no_persist ⟨some "https://site.com", none⟩ "https://site.com"
    "404 Client Error" ⟨"https".toList, "site.com".toList, [], [], []⟩
    (fun _ => FetchResult.failure "404 Client Error") [] "t"
    rfl (by decide) (by decide) (by decide) rfl
